import Mathlib

/-!
Shallow embedding of `src/app.py` (institution-dashboard).

Modelling conventions:
* pandas float64 cells are modelled as exact rationals (`ℚ`); a value that can
  be non-finite (IEEE inf/NaN, as produced by division by zero) is modelled by
  `PFloat`, which carries an explicit non-finite marker.
* `datetime64` values are modelled by `Date` (year/month/day with lexicographic
  order, matching chronological order of calendar dates); a `NaT` entry is
  `Option.none`.
* A raw spreadsheet cell that `pd.to_datetime(..., errors="coerce")` can parse
  is `DateCell.valid d`; any unparsable or missing cell is `DateCell.invalid s`.
* A raw cell fed to `pd.to_numeric(..., errors="coerce")` is `Cell.num q` when
  the conversion succeeds and `Cell.nonNum s` when it fails or the cell is
  missing.
* A DataFrame is a list of rows (a structure per sheet schema); row order of
  the list is the row order of the frame.
* `sort_values` is embedded as a stable sort (`List.mergeSort`) with pandas'
  `na_position="last"` placement of `NaT` keys.
-/

/-- A calendar date, ordered lexicographically (chronological order). -/
structure Date where
  year : Int
  month : Nat
  day : Nat
deriving DecidableEq

/-- Strict chronological order on dates (Boolean, as pandas compares `datetime64`). -/
def Date.blt (a b : Date) : Bool :=
  decide (a.year < b.year) ||
    (decide (a.year = b.year) &&
      (decide (a.month < b.month) ||
        (decide (a.month = b.month) && decide (a.day < b.day))))

/-- Non-strict chronological order on dates. -/
def Date.ble (a b : Date) : Bool :=
  decide (a.year < b.year) ||
    (decide (a.year = b.year) &&
      (decide (a.month < b.month) ||
        (decide (a.month = b.month) && decide (a.day ≤ b.day))))

/-- A raw spreadsheet cell holding a quarter date, as seen by
`pd.to_datetime(..., errors="coerce")`: either parseable to a date, or not
(unparsable text or a missing value). -/
inductive DateCell where
  | valid (d : Date)
  | invalid (s : String)
deriving DecidableEq

/-- Embedding of `pd.to_datetime(cell, errors="coerce")` (line 23): a parseable cell becomes
its date, anything else becomes `NaT` (modelled `none`); it never raises. -/
def to_datetime : DateCell → Option Date
  | .valid d => some d
  | .invalid _ => none

/-- Three-letter month abbreviation used by `strftime("%b %Y")`. -/
def monthAbbrev (m : Nat) : String :=
  (["Jan", "Feb", "Mar", "Apr", "May", "Jun",
    "Jul", "Aug", "Sep", "Oct", "Nov", "Dec"].getD (m - 1) "NaT")

/-- Embedding of `dt.strftime("%b %Y")` (line 24) applied to a valid date. -/
def strftime_b_Y (d : Date) : String :=
  monthAbbrev d.month ++ " " ++ toString d.year

/-- A pandas float64 value: either a finite value (modelled exactly as a
rational) or a non-finite value (IEEE `inf`/`-inf`/`NaN`). -/
inductive PFloat where
  | fin (q : ℚ)
  | nonFinite
deriving DecidableEq

/-- Float division as pandas performs it elementwise: a zero divisor yields a
non-finite value (`inf`, `-inf` or `NaN`), never an exception. -/
def div_float (a b : ℚ) : PFloat :=
  if b = 0 then .nonFinite else .fin (a / b)

/-- Multiplying a possibly non-finite value by a nonzero finite constant
(`* 100` in line 28): non-finite stays non-finite. -/
def PFloat.scale : PFloat → ℚ → PFloat
  | .fin q, c => .fin (q * c)
  | .nonFinite, _ => .nonFinite

/-- One raw row of `Sheet1` as `pd.read_excel` returns it (line 20).
`InstitutionShareHeld` is `some v` when the source sheet provides that column
(pandas column presence is uniform across rows, so it is carried per row). -/
structure RawRow where
  Company_symbol : String
  Company_name : String
  industry : String
  quarter_date : DateCell
  InstitutionPercentHeld : ℚ
  InstitutionSharesBought : ℚ
  InstitutionSharesSold : ℚ
  Total_SharesOutstanding : ℚ
  Sharefloat : ℚ
  Institutionholdernumber : ℚ
  InstitutionShareHeld : Option ℚ
deriving DecidableEq

/-- One row of the DataFrame returned by `load_data` (lines 19–34): the raw
columns plus the parsed date, the quarter label and the derived fields. -/
structure LoadedRow where
  Company_symbol : String
  Company_name : String
  industry : String
  quarter_date : Option Date
  quarter_date_str : Option String
  InstitutionPercentHeld : ℚ
  InstitutionSharesBought : ℚ
  InstitutionSharesSold : ℚ
  Total_SharesOutstanding : ℚ
  Sharefloat : ℚ
  Institutionholdernumber : ℚ
  NetSharesChange : ℚ
  PercentChangeHeld : PFloat
  InstitutionOwnershipValue : ℚ
  InstitutionShareHeld : ℚ
deriving DecidableEq

/-- The per-row effect of `load_data` (lines 23–32): parse the date, format
the quarter label, compute `NetSharesChange`, `PercentChangeHeld`,
`InstitutionOwnershipValue`, and fill `InstitutionShareHeld` from the source
column when present, otherwise from `InstitutionPercentHeld/100 ×
Total_SharesOutstanding` (lines 31–32). -/
def loadRow (r : RawRow) : LoadedRow :=
  { Company_symbol := r.Company_symbol
    Company_name := r.Company_name
    industry := r.industry
    quarter_date := to_datetime r.quarter_date
    quarter_date_str := (to_datetime r.quarter_date).map strftime_b_Y
    InstitutionPercentHeld := r.InstitutionPercentHeld
    InstitutionSharesBought := r.InstitutionSharesBought
    InstitutionSharesSold := r.InstitutionSharesSold
    Total_SharesOutstanding := r.Total_SharesOutstanding
    Sharefloat := r.Sharefloat
    Institutionholdernumber := r.Institutionholdernumber
    NetSharesChange := r.InstitutionSharesBought - r.InstitutionSharesSold
    PercentChangeHeld :=
      (div_float (r.InstitutionSharesBought - r.InstitutionSharesSold)
        r.Total_SharesOutstanding).scale 100
    InstitutionOwnershipValue :=
      r.InstitutionPercentHeld / 100 * r.Total_SharesOutstanding
    InstitutionShareHeld :=
      r.InstitutionShareHeld.getD
        (r.InstitutionPercentHeld / 100 * r.Total_SharesOutstanding) }

/-- Embedding of `load_data` (lines 19–34): column-wise assignments act row-wise, so the
whole loader is the row transformation mapped over the sheet. -/
def load_data (rows : List RawRow) : List LoadedRow :=
  rows.map loadRow

/-- A raw cell fed to `pd.to_numeric(..., errors="coerce")`: either it
converts to a number, or it does not (non-numeric text such as `"N/A"`, or a
missing value). -/
inductive Cell where
  | num (q : ℚ)
  | nonNum (s : String)
deriving DecidableEq

/-- Embedding of `pd.to_numeric(cell, errors="coerce").fillna(0)` (line 46): a convertible
cell keeps its value, everything else becomes `0.0`; it never raises and never
drops the cell's row. -/
def to_numeric_fillna0 : Cell → ℚ
  | .num q => q
  | .nonNum _ => 0

/-- One raw row of the `Institution_Holdings` sheet (line 41). -/
structure InstRawRow where
  Company_symbol : String
  owner_name : String
  total_market_value : Cell
  total_shares : Cell
  share_change : Cell
  share_change_percentage : Cell
deriving DecidableEq

/-- One row of the DataFrame returned by `load_institution_data`. -/
structure InstRow where
  Company_symbol : String
  owner_name : String
  total_market_value : ℚ
  total_shares : ℚ
  share_change : ℚ
  share_change_percentage : ℚ
deriving DecidableEq

/-- The per-row effect of `load_institution_data` (lines 43–46): coerce the
four numeric columns, zeroing whatever fails conversion. -/
def loadInstRow (r : InstRawRow) : InstRow :=
  { Company_symbol := r.Company_symbol
    owner_name := r.owner_name
    total_market_value := to_numeric_fillna0 r.total_market_value
    total_shares := to_numeric_fillna0 r.total_shares
    share_change := to_numeric_fillna0 r.share_change
    share_change_percentage := to_numeric_fillna0 r.share_change_percentage }

/-- Embedding of `load_institution_data` (lines 40–48), mapped row-wise over the sheet. -/
def load_institution_data (rows : List InstRawRow) : List InstRow :=
  rows.map loadInstRow

/-- Round half to even (Python's `round` on the scaled value). -/
def round_half_even (q : ℚ) : ℤ :=
  if q - ⌊q⌋ < 1 / 2 then ⌊q⌋
  else if q - ⌊q⌋ > 1 / 2 then ⌊q⌋ + 1
  else if ⌊q⌋ % 2 = 0 then ⌊q⌋ else ⌊q⌋ + 1

/-- Python's `round(y, 2)`: round half to even at two decimal places. -/
def round2 (y : ℚ) : ℚ :=
  (round_half_even (y * 100) : ℚ) / 100

/-- Embedding of `to_million` (lines 53–54): `round(x / 1_000_000, 2)`. -/
def to_million (x : ℚ) : ℚ :=
  round2 (x / 1000000)

/-- Ascending `sort_values("quarter_date")` key order (line 74): pandas sorts
with `na_position="last"`, so a `NaT` key compares after every valid date and
equal to another `NaT`. -/
def qdLe (a b : LoadedRow) : Bool :=
  match a.quarter_date, b.quarter_date with
  | none, none => true
  | none, some _ => false
  | some _, none => true
  | some x, some y => x.ble y

/-- Embedding of `filtered_df.sort_values("quarter_date")` (line 74), as a stable
sort with `NaT` rows placed last. -/
def sort_values_quarter_date (l : List LoadedRow) : List LoadedRow :=
  l.mergeSort qdLe

/-- Documented contract of `records.sort_values(column, ascending=False)`
(lines 168 and 202/211) under the default `kind="quicksort"`: the output is a
permutation of the input, ordered descending by the key column. The relative
order of rows with equal keys is NOT specified — pandas guarantees stability
only for `kind="mergesort"`, which this code does not request. -/
def IsSortValuesDesc {α : Type} (key : α → ℚ) (l l' : List α) : Prop :=
  l'.Perm l ∧ l'.Pairwise fun a b => key b ≤ key a

/-- Embedding of `records.sort_values(column, ascending=False).head(n)`
(lines 168 and 202/211): take the first `n` rows of the sorted frame. The
sorting procedure is a parameter constrained only by `IsSortValuesDesc`,
because the source's default sort kind leaves the tie order unspecified. -/
def topNByColumn {α : Type} (sortAlg : List α → List α) (n : Nat) (l : List α) : List α :=
  (sortAlg l).take n

/-- Embedding of `x.loc[x["quarter_date"].idxmax()]` (lines 200 and 210) on one group:
`idxmax` skips `NaT` and returns the first index attaining the maximum date,
so this picks the earliest-occurring row with the maximal valid date; it is
`none` when no row has a valid date (pandas raises there). -/
def loc_idxmax : List LoadedRow → Option LoadedRow
  | [] => none
  | r :: rs =>
    match r.quarter_date with
    | none => loc_idxmax rs
    | some d =>
      match loc_idxmax rs with
      | none => some r
      | some r' =>
        match r'.quarter_date with
        | none => some r
        | some d' => if d.blt d' then some r' else some r

/-- Embedding of `df.loc[df.groupby("Company_symbol")["quarter_date"].idxmax()]`
(lines 199–201 and 210): groupby sorts the group keys ascending, and for each
company the row at the group's `idxmax` of `quarter_date` is selected. -/
def latest_per_company (rows : List LoadedRow) : List LoadedRow :=
  (((rows.map (·.Company_symbol)).dedup).mergeSort fun a b => decide (a ≤ b)).filterMap
    fun s => loc_idxmax (rows.filter fun r => r.Company_symbol = s)

/-- Embedding of `df.to_excel(output_file)` followed by `pd.read_excel` of the export
(lines 223–224 feeding back into line 20): the export writes every column of
the loaded frame, so re-reading yields the raw columns unchanged, the
already-parsed dates (re-parsing a datetime is the identity; `NaT` exports to
an empty cell), and an `InstitutionShareHeld` column that is now present. -/
def exportRow (r : LoadedRow) : RawRow :=
  { Company_symbol := r.Company_symbol
    Company_name := r.Company_name
    industry := r.industry
    quarter_date :=
      match r.quarter_date with
      | some d => .valid d
      | none => .invalid ""
    InstitutionPercentHeld := r.InstitutionPercentHeld
    InstitutionSharesBought := r.InstitutionSharesBought
    InstitutionSharesSold := r.InstitutionSharesSold
    Total_SharesOutstanding := r.Total_SharesOutstanding
    Sharefloat := r.Sharefloat
    Institutionholdernumber := r.Institutionholdernumber
    InstitutionShareHeld := some r.InstitutionShareHeld }

/-- Serialization of the loaded primary table back to a spreadsheet
(line 224). -/
def export_table (rows : List LoadedRow) : List RawRow :=
  rows.map exportRow

/-- A raw row used by several witnesses: valid date, share-held column absent. -/
def wRow : RawRow :=
  { Company_symbol := "A", Company_name := "A Inc", industry := "Tech"
    quarter_date := .valid ⟨2024, 3, 31⟩
    InstitutionPercentHeld := 50, InstitutionSharesBought := 7
    InstitutionSharesSold := 3, Total_SharesOutstanding := 200
    Sharefloat := 100, Institutionholdernumber := 12
    InstitutionShareHeld := none }

/-- First example row for the `latest_per_company` example: company A, Q1. -/
def rawA1 : RawRow :=
  { Company_symbol := "A", Company_name := "A Inc", industry := "Tech"
    quarter_date := .valid ⟨2024, 3, 31⟩
    InstitutionPercentHeld := 50, InstitutionSharesBought := 7
    InstitutionSharesSold := 3, Total_SharesOutstanding := 200
    Sharefloat := 100, Institutionholdernumber := 12
    InstitutionShareHeld := none }

/-- Company A, Q2. -/
def rawA2 : RawRow :=
  { rawA1 with quarter_date := .valid ⟨2024, 6, 30⟩ }

/-- Company B, Q1. -/
def rawB1 : RawRow :=
  { rawA1 with Company_symbol := "B" }

/-- A raw row whose quarter cell does not parse as a date. -/
def rawBadDate : RawRow :=
  { rawA1 with Company_symbol := "C", quarter_date := .invalid "not a date" }

/-- C1: `NetSharesChange` is exactly bought minus sold, on every row of the
loaded table (line 27). -/
theorem netSharesChange_eq_bought_sub_sold (rows : List RawRow) :
    ∀ lr ∈ load_data rows, ∃ r ∈ rows,
      lr = loadRow r ∧
      lr.NetSharesChange = r.InstitutionSharesBought - r.InstitutionSharesSold := by
  intro lr hlr
  rcases List.mem_map.mp hlr with ⟨r, hr, hrl⟩
  exact ⟨r, hr, hrl.symm, by rw [hrl.symm]; rfl⟩

/-- C2: on every loaded row, when `Total_SharesOutstanding` is nonzero,
`PercentChangeHeld` is exactly `NetSharesChange / Total_SharesOutstanding *
100`; when it is zero the loader still produces the row, with a non-finite
`PercentChangeHeld` (line 28). -/
theorem percentChangeHeld_spec (r : RawRow) :
    (r.Total_SharesOutstanding ≠ 0 →
      (loadRow r).PercentChangeHeld =
        .fin ((loadRow r).NetSharesChange / r.Total_SharesOutstanding * 100)) ∧
    (r.Total_SharesOutstanding = 0 →
      (loadRow r).PercentChangeHeld = .nonFinite) := by
  constructor
  · intro h
    simp [loadRow, div_float, PFloat.scale, h]
  · intro h
    simp [loadRow, div_float, PFloat.scale, h]

/-- Witness for C2 at a concrete row with 200 shares outstanding. -/
theorem percentChangeHeld_spec_witness :
    (loadRow wRow).PercentChangeHeld =
      .fin ((loadRow wRow).NetSharesChange / wRow.Total_SharesOutstanding * 100) :=
  (percentChangeHeld_spec wRow).1 (by norm_num [wRow])

/-- C3: `InstitutionShareHeld` is computed as
`InstitutionPercentHeld/100 × Total_SharesOutstanding` only when the source
does not provide the column; a provided value is passed through unchanged,
whatever it is (lines 31–32). -/
theorem institutionShareHeld_spec (r : RawRow) :
    (∀ v, r.InstitutionShareHeld = some v → (loadRow r).InstitutionShareHeld = v) ∧
    (r.InstitutionShareHeld = none →
      (loadRow r).InstitutionShareHeld =
        r.InstitutionPercentHeld / 100 * r.Total_SharesOutstanding) := by
  constructor
  · intro v hv
    simp [loadRow, hv]
  · intro h
    simp [loadRow, h]

/-- Witness for C3: a provided value inconsistent with the product
(`999 ≠ 50/100 × 200`) is passed through as-is. -/
theorem institutionShareHeld_spec_witness :
    (loadRow { wRow with InstitutionShareHeld := some 999 }).InstitutionShareHeld = 999 :=
  (institutionShareHeld_spec { wRow with InstitutionShareHeld := some 999 }).1 999 rfl

/-- C4: the institution loader keeps every row, and on each row each of the
four numeric columns maps a non-convertible or missing value to `0.0`
(lines 43–46). -/
theorem load_institution_data_coerce (rows : List InstRawRow) :
    (load_institution_data rows).length = rows.length ∧
    ∀ r ∈ rows, loadInstRow r ∈ load_institution_data rows ∧
      (∀ s, r.total_market_value = .nonNum s → (loadInstRow r).total_market_value = 0) ∧
      (∀ s, r.total_shares = .nonNum s → (loadInstRow r).total_shares = 0) ∧
      (∀ s, r.share_change = .nonNum s → (loadInstRow r).share_change = 0) ∧
      (∀ s, r.share_change_percentage = .nonNum s →
        (loadInstRow r).share_change_percentage = 0) := by
  refine ⟨List.length_map _ _, fun r hr => ⟨List.mem_map_of_mem _ hr, ?_, ?_, ?_, ?_⟩⟩ <;>
    intro s hs <;> simp [loadInstRow, hs, to_numeric_fillna0]

/-- Witness for C4: a row whose `total_shares` cell is the text `"N/A"` is
kept and its `total_shares` is coerced to `0`. -/
theorem load_institution_data_coerce_witness :
    ((load_institution_data
        [{ Company_symbol := "A", owner_name := "Fund One"
           total_market_value := .num 5, total_shares := .nonNum "N/A"
           share_change := .num 1, share_change_percentage := .num 2 }]).length = 1) ∧
    (loadInstRow
        { Company_symbol := "A", owner_name := "Fund One"
          total_market_value := .num 5, total_shares := .nonNum "N/A"
          share_change := .num 1, share_change_percentage := .num 2 }).total_shares = 0 := by
  refine ⟨(load_institution_data_coerce _).1, ?_⟩
  exact ((load_institution_data_coerce
      [{ Company_symbol := "A", owner_name := "Fund One"
         total_market_value := .num 5, total_shares := .nonNum "N/A"
         share_change := .num 1, share_change_percentage := .num 2 }]).2
    _ (List.mem_singleton.mpr rfl)).2.2.1 "N/A" rfl

/-- Witness for C1 at a one-row table. -/
theorem netSharesChange_eq_bought_sub_sold_witness :
    ∃ r ∈ [wRow], loadRow wRow = loadRow r ∧
      (loadRow wRow).NetSharesChange =
        r.InstitutionSharesBought - r.InstitutionSharesSold :=
  netSharesChange_eq_bought_sub_sold [wRow] (loadRow wRow) (by simp [load_data])

/-- Reloading the export of a loaded row reproduces the loaded row: the raw
columns are copied through, the date re-parses to itself, and the derived
columns are recomputed from the same raw values (the now-present
`InstitutionShareHeld` column is passed through). -/
theorem loadRow_exportRow (r : RawRow) :
    loadRow (exportRow (loadRow r)) = loadRow r := by
  cases h : r.quarter_date <;>
    simp [loadRow, exportRow, to_datetime, h]

/-- C9: running the ownership loader on the exported spreadsheet of a loaded
table yields that loaded table again, raw and derived fields alike
(lines 223–224 fed back through lines 19–34). -/
theorem load_data_export_round_trip (rows : List RawRow) :
    load_data (export_table (load_data rows)) = load_data rows := by
  simp only [load_data, export_table, List.map_map]
  exact List.map_congr_left fun r _ => loadRow_exportRow r

/-- C10: the ownership loader keeps every row, in order, and leaves every
source column other than `quarter_date` unchanged; `quarter_date` is replaced
by its parsed form, and the quarter label and derived columns are filled in
(lines 19–34). -/
theorem load_data_frame (rows : List RawRow) :
    (load_data rows).length = rows.length ∧
    ∀ i (h1 : i < rows.length) (h2 : i < (load_data rows).length),
      (load_data rows).get ⟨i, h2⟩ = loadRow (rows.get ⟨i, h1⟩) ∧
      ((load_data rows).get ⟨i, h2⟩).Company_symbol = (rows.get ⟨i, h1⟩).Company_symbol ∧
      ((load_data rows).get ⟨i, h2⟩).Company_name = (rows.get ⟨i, h1⟩).Company_name ∧
      ((load_data rows).get ⟨i, h2⟩).industry = (rows.get ⟨i, h1⟩).industry ∧
      ((load_data rows).get ⟨i, h2⟩).InstitutionPercentHeld =
        (rows.get ⟨i, h1⟩).InstitutionPercentHeld ∧
      ((load_data rows).get ⟨i, h2⟩).InstitutionSharesBought =
        (rows.get ⟨i, h1⟩).InstitutionSharesBought ∧
      ((load_data rows).get ⟨i, h2⟩).InstitutionSharesSold =
        (rows.get ⟨i, h1⟩).InstitutionSharesSold ∧
      ((load_data rows).get ⟨i, h2⟩).Total_SharesOutstanding =
        (rows.get ⟨i, h1⟩).Total_SharesOutstanding ∧
      ((load_data rows).get ⟨i, h2⟩).Sharefloat = (rows.get ⟨i, h1⟩).Sharefloat ∧
      ((load_data rows).get ⟨i, h2⟩).Institutionholdernumber =
        (rows.get ⟨i, h1⟩).Institutionholdernumber ∧
      ((load_data rows).get ⟨i, h2⟩).quarter_date =
        to_datetime (rows.get ⟨i, h1⟩).quarter_date ∧
      ((load_data rows).get ⟨i, h2⟩).quarter_date_str =
        (to_datetime (rows.get ⟨i, h1⟩).quarter_date).map strftime_b_Y := by
  refine ⟨List.length_map _ _, fun i h1 h2 => ?_⟩
  have hget : (load_data rows).get ⟨i, h2⟩ = loadRow (rows.get ⟨i, h1⟩) := by
    simp [load_data]
  rw [hget]
  exact ⟨rfl, rfl, rfl, rfl, rfl, rfl, rfl, rfl, rfl, rfl, rfl, rfl⟩

/-- Witness for C10 at a one-row table, index 0. -/
theorem load_data_frame_witness :
    (load_data [wRow]).length = [wRow].length ∧
    ((load_data [wRow]).get ⟨0, by simp [load_data]⟩).Company_symbol =
      ([wRow].get ⟨0, by simp⟩).Company_symbol := by
  refine ⟨(load_data_frame [wRow]).1, ?_⟩
  exact ((load_data_frame [wRow]).2 0 (by simp) (by simp [load_data])).2.1

/-- C8: `to_million x` is `round(x / 1_000_000, 2)` for every rational input,
and in particular maps `2_500_000` to `2.5` and `-1_250_000` to `-1.25`
(lines 53–54). -/
theorem to_million_spec :
    (∀ x : ℚ, to_million x = round2 (x / 1000000)) ∧
    to_million 2500000 = 5 / 2 ∧ to_million (-1250000) = -(5 / 4) := by
  refine ⟨fun x => rfl, ?_, ?_⟩ <;>
    norm_num [to_million, round2, round_half_even]

theorem Date.ble_trans (a b c : Date) (h1 : a.ble b) (h2 : b.ble c) : a.ble c := by
  simp only [Date.ble, Bool.or_eq_true, Bool.and_eq_true, decide_eq_true_eq] at *
  omega

theorem Date.ble_total (a b : Date) : a.ble b || b.ble a := by
  simp only [Date.ble, Bool.or_eq_true, Bool.and_eq_true, decide_eq_true_eq]
  omega

theorem Date.not_blt (a b : Date) : ¬a.blt b ↔ b.ble a := by
  simp only [Date.blt, Date.ble, Bool.or_eq_true, Bool.and_eq_true, decide_eq_true_eq]
  omega

theorem Date.blt_ble (a b : Date) (h : a.blt b) : a.ble b := by
  simp only [Date.blt, Date.ble, Bool.or_eq_true, Bool.and_eq_true, decide_eq_true_eq] at *
  omega

theorem qdLe_trans (a b c : LoadedRow) (h1 : qdLe a b) (h2 : qdLe b c) : qdLe a c := by
  unfold qdLe at *
  cases ha : a.quarter_date <;> cases hb : b.quarter_date <;> cases hc : c.quarter_date <;>
    simp_all
  exact Date.ble_trans _ _ _ h1 h2

theorem qdLe_total (a b : LoadedRow) : qdLe a b || qdLe b a := by
  unfold qdLe
  cases a.quarter_date <;> cases b.quarter_date <;> simp_all
  simpa using Date.ble_total _ _

/-- Counterexample to C6 as stated: `sort_values(column, ascending=False)` at
lines 168 and 202/211 uses the default quicksort, which is not guaranteed
stable, so the claim's stability clause is not entailed by the code. A sort
procedure meeting the `sort_values` contract may return the two equal-key
records `(5, 0), (5, 1)` in reversed order, and `topNByColumn` then differs
from the stable-sort output (the input order) on those records. -/
theorem topNByColumn_stability_counterexample :
    IsSortValuesDesc (fun q : ℚ × ℕ => q.1) [(5, 0), (5, 1)] [(5, 1), (5, 0)] ∧
    topNByColumn (fun _ : List (ℚ × ℕ) => [(5, 1), (5, 0)]) 10 [(5, 0), (5, 1)] ≠
      [(5, 0), (5, 1)] := by
  refine ⟨⟨List.Perm.swap _ _ _, ?_⟩, ?_⟩
  · simp [List.pairwise_cons]
  · simp [topNByColumn]

/-- C6 (amended): `topNByColumn` sorts the records by the given numeric
column, descending by default, and returns the first `n`; for every sorting
procedure meeting the `sort_values` contract the output is the `n`-entry
prefix of a key-ordered permutation of the records, it is sorted descending,
and when the input has at most `n` records it is all of them, sorted, with
nothing dropped and no error — but the relative order of records with equal
keys is unspecified (the default sort kind is not stable). -/
theorem topNByColumn_spec {α : Type} (key : α → ℚ) (sortAlg : List α → List α)
    (n : Nat) (l : List α) (hsort : IsSortValuesDesc key l (sortAlg l)) :
    topNByColumn sortAlg n l = (sortAlg l).take n ∧
    (topNByColumn sortAlg n l).Pairwise (fun a b => key b ≤ key a) ∧
    (l.length ≤ n →
      topNByColumn sortAlg n l = sortAlg l ∧ (topNByColumn sortAlg n l).Perm l) := by
  obtain ⟨hperm, hpw⟩ := hsort
  refine ⟨rfl, hpw.sublist (List.take_sublist n _), ?_⟩
  intro hn
  have hall : topNByColumn sortAlg n l = sortAlg l := by
    unfold topNByColumn
    exact List.take_of_length_le (by rw [hperm.length_eq]; exact hn)
  exact ⟨hall, by rw [hall]; exact hperm⟩

/-- When `idxmax` has nothing to return, every row of the group has a `NaT`
date. -/
theorem loc_idxmax_none_all (l : List LoadedRow) :
    loc_idxmax l = none → ∀ r ∈ l, r.quarter_date = none := by
  induction l with
  | nil => intro _ r hr; cases hr
  | cons a rs ih =>
    intro h r hr
    cases hq : a.quarter_date with
    | none =>
      simp only [loc_idxmax, hq] at h
      rcases List.mem_cons.mp hr with rfl | hr'
      · exact hq
      · exact ih h r hr'
    | some d =>
      exfalso
      cases hrec : loc_idxmax rs with
      | none =>
        simp only [loc_idxmax, hq, hrec] at h
        exact Option.noConfusion h
      | some r' =>
        cases hq' : r'.quarter_date with
        | none =>
          simp only [loc_idxmax, hq, hrec, hq'] at h
          exact Option.noConfusion h
        | some d' =>
          simp only [loc_idxmax, hq, hrec, hq'] at h
          split at h <;> exact Option.noConfusion h

/-- Specification of `x.loc[x["quarter_date"].idxmax()]` on one group: the
selected row has a valid date, every strictly earlier row has a strictly
smaller (or no) date, and every later row has a smaller-or-equal (or no)
date — i.e. the first occurrence of the maximal valid date is chosen. -/
theorem loc_idxmax_spec (l : List LoadedRow) (r : LoadedRow)
    (h : loc_idxmax l = some r) :
    ∃ d l₁ l₂, r.quarter_date = some d ∧ l = l₁ ++ r :: l₂ ∧
      (∀ x ∈ l₁, ∀ dx, x.quarter_date = some dx → dx.blt d) ∧
      (∀ x ∈ l₂, ∀ dx, x.quarter_date = some dx → dx.ble d) := by
  induction l generalizing r with
  | nil => exact Option.noConfusion h
  | cons a rs ih =>
    cases hq : a.quarter_date with
    | none =>
      simp only [loc_idxmax, hq] at h
      obtain ⟨d, l₁, l₂, hrd, hdec, hlt, hle⟩ := ih r h
      exact ⟨d, a :: l₁, l₂, hrd, by rw [hdec]; rfl,
        fun x hx dx hdx => by
          rcases List.mem_cons.mp hx with rfl | hx'
          · rw [hq] at hdx; exact Option.noConfusion hdx
          · exact hlt x hx' dx hdx,
        hle⟩
    | some d0 =>
      cases hrec : loc_idxmax rs with
      | none =>
        simp only [loc_idxmax, hq, hrec, Option.some.injEq] at h
        subst h
        refine ⟨d0, [], rs, hq, rfl, fun x hx => absurd hx (List.not_mem_nil x), ?_⟩
        intro x hx dx hdx
        rw [loc_idxmax_none_all rs hrec x hx] at hdx
        exact Option.noConfusion hdx
      | some r' =>
        obtain ⟨d', l₁, l₂, hrd', hdec, hlt, hle⟩ := ih r' hrec
        simp only [loc_idxmax, hq, hrec, hrd'] at h
        by_cases hcmp : d0.blt d'
        · rw [if_pos hcmp] at h
          have hr : r' = r := Option.some.inj h
          subst hr
          exact ⟨d', a :: l₁, l₂, hrd', by rw [hdec]; rfl,
            fun x hx dx hdx => by
              rcases List.mem_cons.mp hx with rfl | hx'
              · rw [hq] at hdx
                rw [← Option.some.inj hdx]
                exact hcmp
              · exact hlt x hx' dx hdx,
            hle⟩
        · rw [if_neg hcmp] at h
          have hr : a = r := Option.some.inj h
          subst hr
          have hd'0 : d'.ble d0 := (Date.not_blt d0 d').mp hcmp
          refine ⟨d0, [], rs, hq, rfl, fun x hx => absurd hx (List.not_mem_nil x), ?_⟩
          intro x hx dx hdx
          rw [hdec] at hx
          rcases List.mem_append.mp hx with hx₁ | hx₂
          · exact Date.ble_trans _ _ _ (Date.blt_ble _ _ (hlt x hx₁ dx hdx)) hd'0
          · rcases List.mem_cons.mp hx₂ with rfl | hx₃
            · rw [hrd'] at hdx
              rw [← Option.some.inj hdx]
              exact hd'0
            · exact Date.ble_trans _ _ _ (hle x hx₃ dx hdx) hd'0

/-- C7: each row returned by `latest_per_company` is, within its company's
group (the input rows with that symbol, in input order), the
earliest-occurring row carrying the maximal valid quarter date; over the
loaded records `[(A, Q1), (A, Q2), (B, Q1)]` it returns `[(A, Q2), (B, Q1)]`
(lines 199–201 and 210). -/
theorem latest_per_company_spec :
    (∀ (rows : List LoadedRow) (r : LoadedRow), r ∈ latest_per_company rows →
      ∃ d l₁ l₂, r.quarter_date = some d ∧
        rows.filter (fun x => x.Company_symbol = r.Company_symbol) = l₁ ++ r :: l₂ ∧
        (∀ x ∈ l₁, ∀ dx, x.quarter_date = some dx → dx.blt d) ∧
        (∀ x ∈ l₂, ∀ dx, x.quarter_date = some dx → dx.ble d)) ∧
    latest_per_company (load_data [rawA1, rawA2, rawB1]) =
      [loadRow rawA2, loadRow rawB1] := by
  constructor
  · intro rows r hr
    obtain ⟨s, _, hpick⟩ := List.mem_filterMap.mp hr
    obtain ⟨d, l₁, l₂, hrd, hdec, hlt, hle⟩ := loc_idxmax_spec _ _ hpick
    have hrmem : r ∈ rows.filter (fun x => decide (x.Company_symbol = s)) := by
      rw [hdec]
      exact List.mem_append_right _ (List.mem_cons_self _ _)
    have hps := (List.mem_filter.mp hrmem).2
    have hsym : r.Company_symbol = s := by simpa using hps
    subst hsym
    exact ⟨d, l₁, l₂, hrd, hdec, hlt, hle⟩
  · unfold latest_per_company
    rw [show ((load_data [rawA1, rawA2, rawB1]).map (·.Company_symbol)).dedup
        = ["A", "B"] by decide]
    rw [List.mergeSort_of_sorted (by simp [List.pairwise_cons]; decide)]
    rfl

/-- Witness for C7 at the example table: the selected row for company A is an
occurrence of the maximal date within A's group. -/
theorem latest_per_company_spec_witness :
    ∃ d l₁ l₂, (loadRow rawA2).quarter_date = some d ∧
      (load_data [rawA1, rawA2, rawB1]).filter
        (fun x => x.Company_symbol = (loadRow rawA2).Company_symbol) = l₁ ++ loadRow rawA2 :: l₂ ∧
      (∀ x ∈ l₁, ∀ dx, x.quarter_date = some dx → dx.blt d) ∧
      (∀ x ∈ l₂, ∀ dx, x.quarter_date = some dx → dx.ble d) :=
  latest_per_company_spec.1 (load_data [rawA1, rawA2, rawB1]) (loadRow rawA2)
    (by rw [latest_per_company_spec.2]; exact List.mem_cons_self _ _)

/-- Counterexample to C5 as stated: a row whose `quarter_date` failed to parse
(so the marker is null) is NOT excluded from `sort_values("quarter_date")`
(line 74) — it is retained in the sorted output, and placed last, so it is
even what `iloc[-1]` then selects as the "latest" row. -/
theorem sort_keeps_null_date_row :
    (loadRow rawBadDate).quarter_date = none ∧
    loadRow rawBadDate ∈ sort_values_quarter_date (load_data [wRow, rawBadDate]) ∧
    (sort_values_quarter_date (load_data [wRow, rawBadDate])).getLast? =
      some (loadRow rawBadDate) := by
  have hsort : sort_values_quarter_date (load_data [wRow, rawBadDate]) =
      load_data [wRow, rawBadDate] :=
    List.mergeSort_of_sorted (by decide)
  refine ⟨rfl, ?_, ?_⟩
  · rw [hsort]
    exact List.mem_cons_of_mem _ (List.mem_cons_self _ _)
  · rw [hsort]
    rfl

/-- C5 (amended): an unparsable `quarter_date` is coerced to a null marker
without raising, and the row is retained by the loader; null-dated rows are
excluded from the `idxmax`-based latest-record selection, but the quarter
sort retains them and places them after every validly dated row. -/
theorem null_date_policy :
    (∀ (r : RawRow) (s : String), r.quarter_date = .invalid s →
      (loadRow r).quarter_date = none) ∧
    (∀ rows : List RawRow, (load_data rows).length = rows.length) ∧
    (∀ l : List LoadedRow, (sort_values_quarter_date l).Perm l) ∧
    (∀ l : List LoadedRow, (sort_values_quarter_date l).Pairwise
      (fun a b => a.quarter_date = none → b.quarter_date = none)) ∧
    (∀ (l : List LoadedRow) (r : LoadedRow), loc_idxmax l = some r →
      r.quarter_date ≠ none) := by
  refine ⟨?_, ?_, ?_, ?_, ?_⟩
  · intro r s h
    simp [loadRow, to_datetime, h]
  · intro rows
    exact List.length_map _ _
  · intro l
    exact List.mergeSort_perm l qdLe
  · intro l
    refine (List.sorted_mergeSort qdLe_trans qdLe_total l).imp ?_
    intro a b hab ha
    unfold qdLe at hab
    rw [ha] at hab
    cases hb : b.quarter_date with
    | none => rfl
    | some d => rw [hb] at hab; exact Bool.noConfusion hab
  · intro l r h
    obtain ⟨d, _, _, hrd, _⟩ := loc_idxmax_spec l r h
    rw [hrd]
    exact Option.noConfusion

/-- Witness for the amended C5 at concrete inputs. -/
theorem null_date_policy_witness :
    (loadRow rawBadDate).quarter_date = none ∧
    (load_data [rawBadDate]).length = [rawBadDate].length ∧
    (sort_values_quarter_date (load_data [rawBadDate])).Perm (load_data [rawBadDate]) ∧
    (loadRow wRow).quarter_date ≠ none :=
  ⟨null_date_policy.1 rawBadDate "not a date" rfl,
    null_date_policy.2.1 [rawBadDate],
    null_date_policy.2.2.1 (load_data [rawBadDate]),
    null_date_policy.2.2.2.2 [loadRow wRow] (loadRow wRow) rfl⟩

/-- Witness for C6 at a concrete admissible sort: two records share the key 5
and the sorting procedure returns them reversed, which the contract allows;
the theorem is applied there with its hypotheses discharged. -/
theorem topNByColumn_spec_witness :
    (topNByColumn (fun _ : List (ℚ × ℕ) => [(5, 1), (5, 0)]) 10 [(5, 0), (5, 1)]).Pairwise
      (fun a b => b.1 ≤ a.1) ∧
    (topNByColumn (fun _ : List (ℚ × ℕ) => [(5, 1), (5, 0)]) 10 [(5, 0), (5, 1)]).Perm
      [(5, 0), (5, 1)] :=
  ⟨(topNByColumn_spec (fun q : ℚ × ℕ => q.1) (fun _ => [(5, 1), (5, 0)]) 10 [(5, 0), (5, 1)]
      ⟨List.Perm.swap _ _ _, by simp [List.pairwise_cons]⟩).2.1,
    ((topNByColumn_spec (fun q : ℚ × ℕ => q.1) (fun _ => [(5, 1), (5, 0)]) 10 [(5, 0), (5, 1)]
      ⟨List.Perm.swap _ _ _, by simp [List.pairwise_cons]⟩).2.2 (by norm_num)).2⟩
